import Mathlib

/-!
Verification of the adaptive multi-strategy retrieval orchestrator
(`src/backend/chat_engine.py`, `src/backend/database.py`).

The Python code is shallowly embedded as executable Lean definitions.
External services (the Groq generator, the numpy cosine routine, the
`re` library, the MongoDB backend) are modelled as oracle parameters:
the generator as an `Option String` (`none` = the call raised), the
backend as a function returning `Except`, the similarity kernel as a
function into `ℚ`.  Floating-point scores are modelled as rationals.
Python string builtins (`str.split`, `str.strip`, `str.replace`) are
given structural reimplementations over `List Char` so that they
evaluate inside the kernel.
-/

/-! ## Python string builtins -/

/-- Worker for `str.split()` (no separator): splits on whitespace runs and
drops empty tokens, exactly like Python's no-argument `split`. -/
def wordsAux : List Char → List Char → List (List Char)
  | [], [] => []
  | [], cur => [cur.reverse]
  | c :: cs, cur =>
    if c.isWhitespace then
      match cur with
      | [] => wordsAux cs []
      | _ => cur.reverse :: wordsAux cs []
    else wordsAux cs (c :: cur)

/-- Python `s.split()` (split on whitespace, no empty tokens). -/
def pyWords (s : String) : List String := (wordsAux s.data []).map (fun l => ⟨l⟩)

/-- Worker for `str.split(sep)` with a one-character separator:
keeps empty fields, exactly like Python's `split` with an argument. -/
def splitCharAux (sep : Char) : List Char → List Char → List (List Char)
  | [], cur => [cur.reverse]
  | c :: cs, cur =>
    if c = sep then cur.reverse :: splitCharAux sep cs []
    else splitCharAux sep cs (c :: cur)

/-- Python `s.split(sep)` for a one-character separator. -/
def splitChar (sep : Char) (s : String) : List String :=
  (splitCharAux sep s.data []).map (fun l => ⟨l⟩)

/-- Worker for `str.strip()`: drop leading and trailing whitespace. -/
def stripChars (l : List Char) : List Char :=
  (((l.dropWhile Char.isWhitespace).reverse).dropWhile Char.isWhitespace).reverse

/-- Python `s.strip()`. -/
def pyStrip (s : String) : String := ⟨stripChars s.data⟩

/-- Python `s.replace('"', '')`: deleting every occurrence of a single
character is a character filter. -/
def removeQuotes (s : String) : String := ⟨s.data.filter (fun c => c ≠ '"')⟩

/-- Python `a or b` on two optional strings, where `None` and `""` are
falsy (used for `img.get("image_path") or img.get("path")`). -/
def pyOrStr : Option String → Option String → Option String
  | some s, b => if s = "" then b else some s
  | none, b => b

/-- Python truthiness of an optional string (`if img_path:`):
`None` and `""` are falsy. -/
def truthyStr : Option String → Option String
  | some s => if s = "" then none else some s
  | none => none

/-! ## Stable descending sort

`sorted(xs, key=…, reverse=True)` and `xs.sort(key=…, reverse=True)` in
CPython are stable: entries with equal keys keep their original relative
order.  We model them with a structural insertion sort that inserts each
element after every strictly-greater key and before the first
less-or-equal key, which realises exactly the stable descending order. -/

/-- Insert `x` into a descending-sorted list, after all strictly greater
keys and before all less-or-equal keys (stability for equal keys). -/
def insertDesc {α : Type} (key : α → ℚ) (x : α) : List α → List α
  | [] => [x]
  | y :: ys => if key x < key y then y :: insertDesc key x ys else x :: y :: ys

/-- Stable descending sort by `key` (model of CPython's stable
`sort`/`sorted` with `reverse=True`). -/
def sortDesc {α : Type} (key : α → ℚ) : List α → List α
  | [] => []
  | x :: xs => insertDesc key x (sortDesc key xs)

/-! ## Reciprocal Rank Fusion (`ChatEngine._reciprocal_rank_fusion`)

Documents are represented by their stable identifier `str(doc["_id"])`;
`doc_store` mapping identifiers back to document objects is elided.
`fused_scores` is a Python `dict`, i.e. an insertion-ordered map from
identifier to score, modelled as an association list in which a new
identifier is appended at the end and an existing one is updated in
place. -/

/-- One `fused_scores[doc_id] += 1.0 / (rank + k)` update (a fresh
identifier is first installed with score 0, i.e. appended with `s`). -/
def addScore (acc : List (String × ℚ)) (d : String) (s : ℚ) : List (String × ℚ) :=
  if d ∈ acc.map Prod.fst then
    acc.map (fun p => if p.1 = d then (p.1, p.2 + s) else p)
  else acc ++ [(d, s)]

/-- The inner loop `for rank, doc in enumerate(results)` of RRF. -/
def scoreOneList (k : ℚ) (acc : List (String × ℚ)) (results : List String) :
    List (String × ℚ) :=
  results.enum.foldl (fun a p => addScore a p.2 (1 / ((p.1 : ℚ) + k))) acc

/-- The accumulated `fused_scores` dict after the outer loop
`for results in results_lists`. -/
def fusedScores (k : ℚ) (results_lists : List (List String)) : List (String × ℚ) :=
  results_lists.foldl (scoreOneList k) []

/-- `sorted(fused_scores.items(), key=lambda x: x[1], reverse=True)`
truncated to `limit`. -/
def rrfRanked (k : ℚ) (results_lists : List (List String)) (limit : ℕ) :
    List (String × ℚ) :=
  (sortDesc Prod.snd (fusedScores k results_lists)).take limit

/-- `_reciprocal_rank_fusion(results_lists, limit)` with the default
`k = 60`, returning the fused documents (by identifier). -/
def reciprocal_rank_fusion (results_lists : List (List String)) (limit : ℕ) :
    List String :=
  (rrfRanked 60 results_lists limit).map Prod.fst

/-- Analysis helper: the score the `fused_scores` association list
assigns to `d` (0 if absent; sums all matching entries, of which there
is at most one by construction). -/
def scoreOf (acc : List (String × ℚ)) (d : String) : ℚ :=
  ((acc.filter (fun p => p.1 = d)).map Prod.snd).sum

/-- Analysis helper: the total contribution of one ranked list to the
fused score of `d`: the sum of `1/(rank + k)` over the occurrences of
`d` in the list. -/
def listContrib (k : ℚ) (d : String) (l : List String) : ℚ :=
  ((l.enum.filter (fun p => p.2 = d)).map (fun p => 1 / ((p.1 : ℚ) + k))).sum

/-- Analysis helper: first-encounter order of identifiers across the
concatenated input lists (the insertion order of the `fused_scores`
dict). -/
def encounterOrder (results_lists : List (List String)) : List String :=
  (results_lists.flatten).foldl (fun acc d => if d ∈ acc then acc else acc ++ [d]) []

/-! ## Documents and deduplication (`ChatEngine._deduplicate_docs`) -/

/-- A retrieved text document: stable identifier `str(doc["_id"])` and
its `combined_text` payload (the only fields the embedded pipelines
read). -/
structure Doc where
  id : String
  combined_text : String
deriving DecidableEq, Repr

/-- `_deduplicate_docs`: keep the first-seen document per identifier,
preserving encounter order (the `seen` set is threaded alongside). -/
def deduplicate_docs (docs : List Doc) : List Doc :=
  (docs.foldl
    (fun (acc : List Doc × List String) d =>
      if d.id ∈ acc.2 then acc else (acc.1 ++ [d], acc.2 ++ [d.id]))
    ([], [])).1

/-- `"\n\n".join(d.get("combined_text","") for d in docs)`. -/
def joinDocs (docs : List Doc) : String :=
  String.intercalate "\n\n" (docs.map (fun d => d.combined_text))

/-! ## Resilient search client (`database.py`)

The MongoDB collection is an oracle `backend : BackendCall → Except
OpFailure (List DbDoc)`; `OpFailure` models
`pymongo.errors.OperationFailure`, with a flag recording whether the
message contains `"indexed as filter"`.  A document is modelled by the
association list of its fields (`doc.get(k)` is `List.lookup`).  The
query vector is opaque to all the embedded logic and is elided from
`SearchParams`. -/

/-- The `search_params` dict (without the optional `"filter"` entry). -/
structure SearchParams where
  index : String
  path : String
  numCandidates : ℕ
  limit : ℕ
deriving DecidableEq, Repr

/-- A filter dict `{key: value, …}`. -/
abbrev FilterDict := List (String × String)

/-- A stored document, reduced to its filterable fields. -/
abbrev DbDoc := List (String × String)

/-- One `collection.aggregate([{"$vectorSearch": …}])` call: the search
params together with the optional `"filter"` entry. -/
structure BackendCall where
  params : SearchParams
  filter : Option FilterDict
deriving DecidableEq

/-- `pymongo.errors.OperationFailure`, with whether its string contains
`"indexed as filter"`. -/
structure OpFailure where
  indexedAsFilter : Bool
deriving DecidableEq, Repr

/-- `DatabaseHandler._manual_fallback`: reissue unfiltered with widened
limits (`limit=100`, `numCandidates=250`), filter locally on the
documents' fields, truncate to the originally requested limit.  A
backend error here propagates. -/
def manual_fallback (backend : BackendCall → Except OpFailure (List DbDoc))
    (search_params : SearchParams) (filter_dict : FilterDict) :
    Except OpFailure (List DbDoc) :=
  let retry_params := { search_params with limit := 100, numCandidates := 250 }
  match backend ⟨retry_params, none⟩ with
  | .error e => .error e
  | .ok results =>
      .ok ((results.filter
        (fun doc => filter_dict.all (fun kv => doc.lookup kv.1 = some kv.2))).take
        search_params.limit)

/-- `DatabaseHandler._execute_resilient_search`.  State: the
`_broken_filters` set.  Returns the result, the new `_broken_filters`
set, and whether the try-block backend attempt (the aggregate carrying
the filter, when one is present) was issued.  Python truthiness of
`filter_dict` makes an empty dict behave like `None`. -/
def execute_resilient_search (backend : BackendCall → Except OpFailure (List DbDoc))
    (broken : Finset String) (search_params : SearchParams)
    (filter_dict : Option FilterDict) :
    Except OpFailure (List DbDoc) × Finset String × Bool :=
  match (match filter_dict with | some [] => none | x => x) with
  | none => (backend ⟨search_params, none⟩, broken, true)
  | some fd =>
      if fd.any (fun kv => kv.1 ∈ broken) then
        (manual_fallback backend search_params fd, broken, false)
      else
        match backend ⟨search_params, some fd⟩ with
        | .ok docs => (.ok docs, broken, true)
        | .error e =>
            if e.indexedAsFilter then
              (manual_fallback backend search_params fd,
               fd.foldl (fun s kv => insert kv.1 s) broken, true)
            else (.error e, broken, true)

/-- `DatabaseHandler.__init__`: `self._broken_filters = {"category"}`. -/
def initBrokenFilters : Finset String := {"category"}

/-! ## Image retrieval (`ChatEngine._retrieve_images`)

The CLIP embedding space is an opaque type `ε`; the numpy cosine
similarity of a candidate embedding against the fixed query embedding
(`np.dot(q, e) / (norm(q) * norm(e) + 1e-8)`) is the oracle
`sim : ε → ℚ`.  A missing `"related_images"` key behaves exactly like an
empty list, and a missing or empty `"clip_embedding"` is falsy, so both
are modelled by `Option`/`[]`.  Of the formatted output dict we keep the
fields the ranking logic reads: the path and the score (page, pdf and
OCR fields are presentational pass-throughs). -/

/-- An entry of a node's `related_images`. -/
structure Img (ε : Type) where
  image_path : Option String
  path : Option String
  clip_embedding : Option ε

/-- A node retrieved either by the visual-direct search or by a text
pass, reduced to its `related_images`. -/
structure Node (ε : Type) where
  related_images : List (Img ε)

/-- A formatted output image (`_format_image_path` result, reduced to
path and score). -/
structure ImgOut where
  image_path : String
  score : ℚ
deriving DecidableEq, Repr

/-- `img.get("image_path") or img.get("path")`, then Python truthiness
(`if img_path …`). -/
def effImagePath {ε : Type} (img : Img ε) : Option String :=
  truthyStr (pyOrStr img.image_path img.path)

/-- Processing of one related image in either pass: path truthy and
unseen, embedding present, score `sim * mult` above the 0.22 threshold.
The visual-direct pass is `mult = 1` (score `float(sim)`, guard
`sim > 0.22`); the text-context pass is `mult = 1.15` (score
`float(sim) * 1.15`, guard on the boosted score). -/
def imgStep {ε : Type} (sim : ε → ℚ) (mult : ℚ)
    (acc : List ImgOut × List String) (img : Img ε) : List ImgOut × List String :=
  match effImagePath img with
  | none => acc
  | some p =>
      if p ∈ acc.2 then acc
      else
        match img.clip_embedding with
        | none => acc
        | some e =>
            let final := sim e * mult
            if 0.22 < final then (acc.1 ++ [⟨p, final⟩], acc.2 ++ [p]) else acc

/-- One candidate-collection pass over a list of nodes
(`for node in …: for img in node["related_images"]: …`), threading
`(all_candidate_images, seen_paths)`. -/
def collectPass {ε : Type} (sim : ε → ℚ) (mult : ℚ) (nodes : List (Node ε))
    (acc : List ImgOut × List String) : List ImgOut × List String :=
  nodes.foldl (fun a node => node.related_images.foldl (imgStep sim mult) a) acc

/-- `_retrieve_images`: visual-direct pass, then boosted text-context
pass, then stable descending sort by score and truncation to `limit`. -/
def retrieve_images {ε : Type} (sim : ε → ℚ) (visual_nodes text_docs : List (Node ε))
    (limit : ℕ) : List ImgOut :=
  let step1 := collectPass sim 1 visual_nodes ([], [])
  let step2 := collectPass sim 1.15 text_docs step1
  (sortDesc ImgOut.score step2.1).take limit

/-! ## Generator-backed helpers (`_generate_queries`, `_score_relevance`,
`_rewrite_query`, `_extract_entities`)

The Groq generator call `self.llm.invoke(prompt).content` is the oracle
`llm : Option String` (`none` = the call raised and the `except` branch
runs).  `re.findall(r"0\.\d+|1\.0", res)` composed with `float` is the
oracle `findScores : String → List ℚ`. -/

/-- `[v.strip() for v in res.split("\n") if v.strip()]`. -/
def variationLines (res : String) : List String :=
  ((splitChar '\n' res).map pyStrip).filter (fun v => v ≠ "")

/-- `_generate_queries`: up to 3 stripped nonempty lines from the
generator plus the original question appended; on generator failure,
just the question. -/
def generate_queries (llm : Option String) (question : String) : List String :=
  match llm with
  | some content => (variationLines (pyStrip content)).take 3 ++ [question]
  | none => [question]

/-- The query variations the Fusion pipeline actually searches:
`queries = self._generate_queries(question); queries = queries[:2]`. -/
def fusionQueries (llm : Option String) (question : String) : List String :=
  (generate_queries llm question).take 2

/-- `_score_relevance`: 0.0 on blank context; first regex-extracted
score of the stripped generator output; 0.5 when the generator fails or
yields no parseable score. -/
def score_relevance (llm : Option String) (findScores : String → List ℚ)
    (context : String) : ℚ :=
  if pyStrip context = "" then 0
  else
    match llm with
    | none => 0.5
    | some content =>
        match findScores (pyStrip content) with
        | [] => 0.5
        | s :: _ => s

/-- `_rewrite_query`: stripped generator output with `"` removed; the
original query on failure. -/
def rewrite_query (llm : Option String) (query : String) : String :=
  match llm with
  | some content => removeQuotes (pyStrip content)
  | none => query

/-- `_extract_entities`: stripped nonempty comma-separated fields of the
stripped generator output; empty list on failure. -/
def extract_entities (llm : Option String) : List String :=
  match llm with
  | some content => ((splitChar ',' (pyStrip content)).map pyStrip).filter (fun e => e ≠ "")
  | none => []

/-! ## Corrective pipeline (`ChatEngine._corrective_rag_pipeline`)

The retrieval and generator helpers are oracles; the observable calls
the pipeline issues after obtaining its first-pass documents are
recorded as an event list (answer generation, which consumes
`answer_context`, is out of scope). -/

/-- An observable call of a strategy pipeline. -/
inductive PipeEvent
  | retrieveCtx (q : String) (top_k : ℕ) (category : Option String)
  | rewriteQuery (q : String)
  | retrieveImgs (q : String) (category : Option String) (limit : ℕ)
deriving DecidableEq, Repr

/-- The Corrective pipeline's result bundle (answer string elided). -/
structure CorrectiveResult where
  v_query : String
  relevance_score : ℚ
  context_docs : List Doc
  answer_context : String
deriving DecidableEq, Repr

/-- First-pass documents: router-supplied `initial_docs` if truthy
(`if initial_docs:` — Python truthiness, so `None` and the empty list
both fall through), else a width-8 category-filtered search (with its
event). -/
def corrInitialDocs (retrieve : String → ℕ → Option String → List Doc)
    (question : String) (category : Option String)
    (initial_docs : Option (List Doc)) : List Doc × List PipeEvent :=
  match (match initial_docs with | some [] => none | x => x) with
  | some ds => (ds, [])
  | none => (retrieve question 8 category, [.retrieveCtx question 8 category])

/-- `_corrective_rag_pipeline`. -/
def corrective_rag_pipeline (retrieve : String → ℕ → Option String → List Doc)
    (scoreRel : String → String → ℚ) (rewriteQ : String → String)
    (question : String) (category : Option String)
    (initial_docs : Option (List Doc)) : CorrectiveResult × List PipeEvent :=
  let init := corrInitialDocs retrieve question category initial_docs
  let context_docs := init.1
  let context := joinDocs context_docs
  let score := scoreRel question context
  if score < 0.7 then
    let rewritten_q := rewriteQ question
    let secondary := retrieve rewritten_q 15 none
    let merged := deduplicate_docs (context_docs ++ secondary)
    ({ v_query := rewritten_q, relevance_score := score, context_docs := merged,
       answer_context := joinDocs (merged.take 12) },
     init.2 ++ [.rewriteQuery question, .retrieveCtx rewritten_q 15 none,
                .retrieveImgs rewritten_q category 12])
  else
    ({ v_query := question, relevance_score := score, context_docs := context_docs,
       answer_context := joinDocs (context_docs.take 12) },
     init.2 ++ [.retrieveImgs question category 12])

/-! ## Auto router (`ChatEngine.ask`, `rag_mode="auto"`) -/

/-- `len(question.split())`. -/
def word_count (question : String) : ℕ := (pyWords question).length

/-- The auto-router block of `ask`: a width-5 unfiltered probe, then the
decision table; the probe results are handed to the chosen pipeline as
its `initial_docs`. -/
def auto_route (retrieve : String → ℕ → Option String → List Doc)
    (question : String) : String × List Doc :=
  let initial_docs := retrieve question 5 none
  if word_count question ≤ 3 then ("speculative", initial_docs)
  else if initial_docs.length < 3 then ("fusion", initial_docs)
  else ("standard", initial_docs)

/-! # Theorems -/

/-! ## Shared helper lemmas -/

lemma foldl_insert_eq_union (l : List (String × String)) (s : Finset String) :
    l.foldl (fun s kv => insert kv.1 s) s = s ∪ (l.map Prod.fst).toFinset := by
  induction l generalizing s with
  | nil => simp
  | cons kv rest ih =>
      simp only [List.foldl_cons, ih, List.map_cons, List.toFinset_cons]
      ext x
      simp [or_comm, or_assoc, or_left_comm]

/-! ## C1 — Fusion: is the original query always searched? -/

/-- C1 counterexample: when the generator returns three paraphrase lines
`"a\nb\nc"`, the Fusion pipeline's searched variation set is `["a", "b"]`
and the original query `"best luxury suv"` is not among the variations
searched — refuting the claim that the original query is always among
them. -/
theorem C1_counterexample :
    fusionQueries (some "a\nb\nc") "best luxury suv" = ["a", "b"] ∧
    "best luxury suv" ∉ fusionQueries (some "a\nb\nc") "best luxury suv" := by
  constructor
  · decide
  · decide

/-- C1 (amended): the Fusion pipeline searches
`(paraphrases.take 3 ++ [original]).take 2`; hence the original query is
among the searched variations when the generator fails or yields at most
one nonempty variation line, but when the generator yields two or more
variations the searched set is exactly the first two paraphrases, so the
original query is searched only if it coincides with one of them. -/
theorem C1_fusion_variations (question s : String) :
    fusionQueries none question = [question] ∧
    ((variationLines (pyStrip s)).length ≤ 1 →
      question ∈ fusionQueries (some s) question) ∧
    (2 ≤ (variationLines (pyStrip s)).length →
      fusionQueries (some s) question = (variationLines (pyStrip s)).take 2) := by
  have hgen : generate_queries (some s) question
      = (variationLines (pyStrip s)).take 3 ++ [question] := rfl
  refine ⟨rfl, ?_, ?_⟩
  · intro h
    rw [fusionQueries, hgen]
    match hv : variationLines (pyStrip s), h with
    | [], _ => simp
    | [a], _ => simp
  · intro h
    rw [fusionQueries, hgen]
    match hv : variationLines (pyStrip s), h with
    | a :: b :: rest, _ => simp

/-- C1 witness for the amended theorem. -/
theorem C1_fusion_variations_witness :
    (fusionQueries none "q" = ["q"]) ∧
    ((variationLines (pyStrip "a")).length ≤ 1 ∧ "q" ∈ fusionQueries (some "a") "q") ∧
    (2 ≤ (variationLines (pyStrip "a\nb\nc")).length ∧
      fusionQueries (some "a\nb\nc") "q" = (variationLines (pyStrip "a\nb\nc")).take 2) :=
  ⟨(C1_fusion_variations "q" "a").1,
   ⟨by decide, (C1_fusion_variations "q" "a").2.1 (by decide)⟩,
   ⟨by decide, (C1_fusion_variations "q" "a\nb\nc").2.2 (by decide)⟩⟩

/-! ## C7 — generator failures degrade to safe defaults -/

/-- C7: every external-generator failure degrades to its
strategy-specific safe default and raises no error: a failed rewrite
keeps the original query, failed (or unparseable) relevance scoring
defaults to 0.5, failed entity extraction yields the empty list, and
failed paraphrase generation yields the singleton list containing only
the original query.  (All embedded helpers are total functions, so no
error propagates to the caller.) -/
theorem C7_generator_defaults (query context s : String) (findScores : String → List ℚ) :
    (pyStrip context ≠ "" → score_relevance none findScores context = 0.5) ∧
    (pyStrip context ≠ "" → findScores (pyStrip s) = [] →
      score_relevance (some s) findScores context = 0.5) ∧
    rewrite_query none query = query ∧
    extract_entities none = [] ∧
    generate_queries none query = [query] := by
  refine ⟨?_, ?_, rfl, rfl, rfl⟩
  · intro h
    simp [score_relevance, h]
  · intro h hf
    simp [score_relevance, h, hf]

/-- C7 witness. -/
theorem C7_generator_defaults_witness :
    pyStrip "some catalog context" ≠ "" ∧
    (fun _ : String => ([] : List ℚ)) (pyStrip "no score here") = [] ∧
    score_relevance none (fun _ => []) "some catalog context" = 0.5 ∧
    score_relevance (some "no score here") (fun _ => []) "some catalog context" = 0.5 ∧
    rewrite_query none "q" = "q" ∧
    extract_entities none = [] ∧
    generate_queries none "q" = ["q"] :=
  ⟨by decide, rfl,
   (C7_generator_defaults "q" "some catalog context" "no score here" (fun _ => [])).1 (by decide),
   (C7_generator_defaults "q" "some catalog context" "no score here" (fun _ => [])).2.1
     (by decide) rfl,
   (C7_generator_defaults "q" "some catalog context" "no score here" (fun _ => [])).2.2.1,
   (C7_generator_defaults "q" "some catalog context" "no score here" (fun _ => [])).2.2.2.1,
   (C7_generator_defaults "q" "some catalog context" "no score here" (fun _ => [])).2.2.2.2⟩

/-! ## C8 — auto-router decision table -/

/-- C8: in auto mode, a query of at most 3 words routes to Speculative;
otherwise a probe with fewer than 3 candidates routes to Fusion, and a
probe with at least 3 candidates routes to Standard; in every case the
width-5 probe results are passed to the chosen strategy as its initial
candidate list. -/
theorem C8_router_table (retrieve : String → ℕ → Option String → List Doc)
    (question : String) :
    (word_count question ≤ 3 →
      auto_route retrieve question = ("speculative", retrieve question 5 none)) ∧
    (3 < word_count question → (retrieve question 5 none).length < 3 →
      auto_route retrieve question = ("fusion", retrieve question 5 none)) ∧
    (3 < word_count question → 3 ≤ (retrieve question 5 none).length →
      auto_route retrieve question = ("standard", retrieve question 5 none)) := by
  refine ⟨?_, ?_, ?_⟩
  · intro h
    simp [auto_route, h]
  · intro h hlen
    rw [auto_route]
    simp [Nat.not_le.mpr h, hlen]
  · intro h hlen
    rw [auto_route]
    simp [Nat.not_le.mpr h, Nat.not_lt.mpr hlen]

/-- C8 witness: a 2-word query routes to Speculative; a 6-word query
with a 2-candidate probe routes to Fusion; a 6-word query with a
5-candidate probe routes to Standard, each receiving the probe as its
initial candidate list. -/
theorem C8_router_table_witness :
    word_count "luxury suv" ≤ 3 ∧
    3 < word_count "best luxury suv for long trips" ∧
    ((fun (_ : String) (_ : ℕ) (_ : Option String) =>
        [Doc.mk "a" "", Doc.mk "b" ""]) "best luxury suv for long trips" 5 none).length < 3 ∧
    3 ≤ ((fun (_ : String) (_ : ℕ) (_ : Option String) =>
        [Doc.mk "a" "", Doc.mk "b" "", Doc.mk "c" "", Doc.mk "d" "", Doc.mk "e" ""])
        "best luxury suv for long trips" 5 none).length ∧
    auto_route (fun _ _ _ => [Doc.mk "a" "", Doc.mk "b" ""]) "luxury suv"
      = ("speculative", [Doc.mk "a" "", Doc.mk "b" ""]) ∧
    auto_route (fun _ _ _ => [Doc.mk "a" "", Doc.mk "b" ""]) "best luxury suv for long trips"
      = ("fusion", [Doc.mk "a" "", Doc.mk "b" ""]) ∧
    auto_route (fun _ _ _ => [Doc.mk "a" "", Doc.mk "b" "", Doc.mk "c" "", Doc.mk "d" "", Doc.mk "e" ""])
        "best luxury suv for long trips"
      = ("standard", [Doc.mk "a" "", Doc.mk "b" "", Doc.mk "c" "", Doc.mk "d" "", Doc.mk "e" ""]) :=
  ⟨by decide, by decide, by decide, by decide,
   (C8_router_table (fun _ _ _ => [Doc.mk "a" "", Doc.mk "b" ""]) "luxury suv").1 (by decide),
   (C8_router_table (fun _ _ _ => [Doc.mk "a" "", Doc.mk "b" ""])
     "best luxury suv for long trips").2.1 (by decide) (by decide),
   (C8_router_table (fun _ _ _ =>
       [Doc.mk "a" "", Doc.mk "b" "", Doc.mk "c" "", Doc.mk "d" "", Doc.mk "e" ""])
     "best luxury suv for long trips").2.2 (by decide) (by decide)⟩

/-! ## C9 — "category" is broken from construction -/

/-- C9: a freshly constructed `DatabaseHandler` already has
`"category"` in its broken-filter set, so every search filtered on
`"category"` — including the very first one — skips the backend
filtered attempt and runs the widened-then-locally-filtered fallback
instead. -/
theorem C9_category_broken_from_init
    (backend : BackendCall → Except OpFailure (List DbDoc))
    (search_params : SearchParams) (kv : String × String) (rest : FilterDict)
    (hcat : kv.1 = "category") :
    "category" ∈ initBrokenFilters ∧
    execute_resilient_search backend initBrokenFilters search_params (some (kv :: rest))
      = (manual_fallback backend search_params (kv :: rest), initBrokenFilters, false) := by
  constructor
  · simp [initBrokenFilters]
  · have hany : (kv :: rest).any (fun p => decide (p.1 ∈ initBrokenFilters)) = true := by
      simp only [List.any_cons, Bool.or_eq_true, decide_eq_true_eq]
      exact Or.inl (by simp [hcat, initBrokenFilters])
    simp [execute_resilient_search, hany]

/-- C9 witness. -/
theorem C9_category_broken_from_init_witness :
    (("category", "automotive") : String × String).1 = "category" ∧
    "category" ∈ initBrokenFilters ∧
    execute_resilient_search (fun _ => Except.ok [])
        initBrokenFilters ⟨"vector_index", "embedding", 100, 5⟩
        (some [("category", "automotive")])
      = (manual_fallback (fun _ => Except.ok [])
          ⟨"vector_index", "embedding", 100, 5⟩ [("category", "automotive")],
         initBrokenFilters, false) :=
  ⟨rfl,
   (C9_category_broken_from_init (fun _ => Except.ok [])
      ⟨"vector_index", "embedding", 100, 5⟩ ("category", "automotive") [] rfl).1,
   (C9_category_broken_from_init (fun _ => Except.ok [])
      ⟨"vector_index", "embedding", 100, 5⟩ ("category", "automotive") [] rfl).2⟩

/-! ## C4 — capability learning is sticky, monotone and idempotent -/

/-- C4: the broken-filter set only ever grows (every call returns a
superset of the incoming set); a filtered search whose filter contains a
known-broken key leaves the set unchanged and goes straight to the
fallback without issuing the backend filtered attempt; and when a fresh
filtered attempt fails with an `"indexed as filter"` error, the filter's
keys are added to the set (set union, so re-adding a present key is a
no-op) and the fallback result is returned.  Together with the second
conjunct this means a key learned broken is never re-attempted during
the process lifetime. -/
theorem C4_capability_learning
    (backend : BackendCall → Except OpFailure (List DbDoc))
    (broken : Finset String) (search_params : SearchParams)
    (filter_dict : Option FilterDict) :
    broken ⊆ (execute_resilient_search backend broken search_params filter_dict).2.1 ∧
    (∀ kv rest, filter_dict = some (kv :: rest) →
      (∃ p ∈ kv :: rest, p.1 ∈ broken) →
      execute_resilient_search backend broken search_params filter_dict
        = (manual_fallback backend search_params (kv :: rest), broken, false)) ∧
    (∀ kv rest e, filter_dict = some (kv :: rest) →
      (∀ p ∈ kv :: rest, p.1 ∉ broken) →
      backend ⟨search_params, some (kv :: rest)⟩ = .error e →
      e.indexedAsFilter = true →
      execute_resilient_search backend broken search_params filter_dict
        = (manual_fallback backend search_params (kv :: rest),
           broken ∪ ((kv :: rest).map Prod.fst).toFinset, true)) := by
  refine ⟨?_, ?_, ?_⟩
  · rcases filter_dict with _ | (_ | ⟨kv, rest⟩)
    · exact Finset.Subset.refl _
    · exact Finset.Subset.refl _
    · rw [execute_resilient_search]
      case x_1 => simp
      split
      · exact Finset.Subset.refl _
      · split
        · exact Finset.Subset.refl _
        · split
          · rw [foldl_insert_eq_union]
            exact Finset.subset_union_left
          · exact Finset.Subset.refl _
  · rintro kv rest rfl ⟨p, hp, hbroken⟩
    have hany : (kv :: rest).any (fun q => decide (q.1 ∈ broken)) = true := by
      rw [List.any_eq_true]
      exact ⟨p, hp, by simpa using hbroken⟩
    simp [execute_resilient_search, hany]
  · rintro kv rest e rfl hfresh hb hflag
    have hany : (kv :: rest).any (fun q => decide (q.1 ∈ broken)) = false := by
      rw [List.any_eq_false]
      intro p hp
      simpa using hfresh p hp
    simp [execute_resilient_search, hany, hb, hflag, foldl_insert_eq_union]

/-- C4 witness: with `broken = {"category"}` a `"category"`-filtered
search skips the attempt; with an empty registry and a backend that
fails the filtered attempt with an `"indexed as filter"` error, the keys
are learned and the fallback result returned. -/
theorem C4_capability_learning_witness :
    (∃ p ∈ [(("category", "automotive") : String × String)],
        p.1 ∈ ({"category"} : Finset String)) ∧
    execute_resilient_search
        (fun c => match c.filter with
          | some _ => Except.error ⟨true⟩
          | none => Except.ok [[("category", "automotive")], [("category", "bath")]])
        ({"category"} : Finset String) ⟨"vector_index", "embedding", 100, 5⟩
        (some [("category", "automotive")])
      = (manual_fallback
          (fun c => match c.filter with
            | some _ => Except.error ⟨true⟩
            | none => Except.ok [[("category", "automotive")], [("category", "bath")]])
          ⟨"vector_index", "embedding", 100, 5⟩ [("category", "automotive")],
         ({"category"} : Finset String), false) ∧
    (∀ p ∈ [(("brand", "wurthi") : String × String)], p.1 ∉ (∅ : Finset String)) ∧
    execute_resilient_search
        (fun c => match c.filter with
          | some _ => Except.error ⟨true⟩
          | none => Except.ok [[("brand", "wurthi")]])
        (∅ : Finset String) ⟨"vector_index", "embedding", 100, 5⟩
        (some [("brand", "wurthi")])
      = (manual_fallback
          (fun c => match c.filter with
            | some _ => Except.error ⟨true⟩
            | none => Except.ok [[("brand", "wurthi")]])
          ⟨"vector_index", "embedding", 100, 5⟩ [("brand", "wurthi")],
         (∅ : Finset String) ∪ ([(("brand", "wurthi") : String × String)].map Prod.fst).toFinset,
         true) :=
  ⟨⟨("category", "automotive"), by simp, by simp⟩,
   (C4_capability_learning _ _ _ _).2.1 ("category", "automotive") [] rfl
     ⟨("category", "automotive"), by simp, by simp⟩,
   by simp,
   (C4_capability_learning _ _ _ _).2.2 ("brand", "wurthi") [] ⟨true⟩ rfl
     (by simp) rfl rfl⟩

/-! ## C3 — Corrective: one rewrite cycle below 0.7, original score reported -/

/-- C3: in the Corrective pipeline, when the context-relevance score is
below 0.7 exactly one rewrite-and-reissue cycle runs — one rewrite of
the query, one second search of width 15 with no category filter, its
results merged and deduplicated with the first pass, the rewritten query
driving the image search — and the reported relevance score is the
original pre-rewrite score; when the score is at least 0.7 no rewrite or
second search occurs and the original query drives the image search. -/
theorem C3_corrective_cycle (retrieve : String → ℕ → Option String → List Doc)
    (scoreRel : String → String → ℚ) (rewriteQ : String → String)
    (question : String) (category : Option String) (initial_docs : Option (List Doc))
    (docs0 : List Doc) (ev0 : List PipeEvent)
    (hinit : corrInitialDocs retrieve question category initial_docs = (docs0, ev0))
    (score : ℚ) (hscore : scoreRel question (joinDocs docs0) = score) :
    (score < 0.7 →
      corrective_rag_pipeline retrieve scoreRel rewriteQ question category initial_docs
        = ({ v_query := rewriteQ question, relevance_score := score,
             context_docs :=
               deduplicate_docs (docs0 ++ retrieve (rewriteQ question) 15 none),
             answer_context :=
               joinDocs ((deduplicate_docs
                 (docs0 ++ retrieve (rewriteQ question) 15 none)).take 12) },
           ev0 ++ [.rewriteQuery question, .retrieveCtx (rewriteQ question) 15 none,
                   .retrieveImgs (rewriteQ question) category 12])) ∧
    (0.7 ≤ score →
      corrective_rag_pipeline retrieve scoreRel rewriteQ question category initial_docs
        = ({ v_query := question, relevance_score := score, context_docs := docs0,
             answer_context := joinDocs (docs0.take 12) },
           ev0 ++ [.retrieveImgs question category 12])) := by
  constructor
  · intro hlow
    rw [corrective_rag_pipeline, hinit]
    simp only [hscore]
    rw [if_pos hlow]
  · intro hhigh
    rw [corrective_rag_pipeline, hinit]
    simp only [hscore]
    rw [if_neg (not_lt.mpr hhigh)]

/-- C3 witness: a constant-0.4 scorer triggers exactly the single
rewrite cycle; a constant-0.9 scorer triggers none. -/
theorem C3_corrective_cycle_witness :
    ((0.4 : ℚ) < 0.7 ∧
      corrective_rag_pipeline (fun _ k _ => if k = 8 then [Doc.mk "d1" "alpha"] else [Doc.mk "d2" "beta"])
          (fun _ _ => 0.4) (fun q => q ++ " catalog") "best suv" none none
        = ({ v_query := "best suv catalog", relevance_score := 0.4,
             context_docs :=
               deduplicate_docs ([Doc.mk "d1" "alpha"] ++
                 (fun (_ : String) (k : ℕ) (_ : Option String) =>
                   if k = 8 then [Doc.mk "d1" "alpha"] else [Doc.mk "d2" "beta"]) "best suv catalog" 15 none),
             answer_context :=
               joinDocs ((deduplicate_docs ([Doc.mk "d1" "alpha"] ++
                 (fun (_ : String) (k : ℕ) (_ : Option String) =>
                   if k = 8 then [Doc.mk "d1" "alpha"] else [Doc.mk "d2" "beta"]) "best suv catalog" 15 none)).take 12) },
           [PipeEvent.retrieveCtx "best suv" 8 none] ++
             [.rewriteQuery "best suv", .retrieveCtx "best suv catalog" 15 none,
              .retrieveImgs "best suv catalog" none 12])) ∧
    ((0.7 : ℚ) ≤ 0.9 ∧
      corrective_rag_pipeline (fun _ k _ => if k = 8 then [Doc.mk "d1" "alpha"] else [Doc.mk "d2" "beta"])
          (fun _ _ => 0.9) (fun q => q ++ " catalog") "best suv" none none
        = ({ v_query := "best suv", relevance_score := 0.9,
             context_docs := [Doc.mk "d1" "alpha"],
             answer_context := joinDocs ([Doc.mk "d1" "alpha"].take 12) },
           [PipeEvent.retrieveCtx "best suv" 8 none] ++ [.retrieveImgs "best suv" none 12])) :=
  ⟨⟨by norm_num,
    (C3_corrective_cycle (fun _ k _ => if k = 8 then [Doc.mk "d1" "alpha"] else [Doc.mk "d2" "beta"])
      (fun _ _ => 0.4) (fun q => q ++ " catalog") "best suv" none none
      [Doc.mk "d1" "alpha"] [PipeEvent.retrieveCtx "best suv" 8 none] rfl 0.4 rfl).1 (by norm_num)⟩,
   ⟨by norm_num,
    (C3_corrective_cycle (fun _ k _ => if k = 8 then [Doc.mk "d1" "alpha"] else [Doc.mk "d2" "beta"])
      (fun _ _ => 0.9) (fun q => q ++ " catalog") "best suv" none none
      [Doc.mk "d1" "alpha"] [PipeEvent.retrieveCtx "best suv" 8 none] rfl 0.9 rfl).2 (by norm_num)⟩⟩

/-! ## Stable sort lemmas -/

lemma insertDesc_perm {α : Type} (key : α → ℚ) (x : α) (l : List α) :
    (insertDesc key x l).Perm (x :: l) := by
  induction l with
  | nil => simp [insertDesc]
  | cons y ys ih =>
      rw [insertDesc]
      split
      · exact ((ih.cons y).trans (List.Perm.swap x y ys))
      · exact List.Perm.refl _

lemma sortDesc_perm {α : Type} (key : α → ℚ) (l : List α) :
    (sortDesc key l).Perm l := by
  induction l with
  | nil => simp [sortDesc]
  | cons x xs ih =>
      rw [sortDesc]
      exact (insertDesc_perm key x (sortDesc key xs)).trans (ih.cons x)

lemma mem_insertDesc {α : Type} {key : α → ℚ} {x z : α} {l : List α} :
    z ∈ insertDesc key x l ↔ z = x ∨ z ∈ l := by
  rw [(insertDesc_perm key x l).mem_iff]
  simp

lemma pairwise_insertDesc {α : Type} {key : α → ℚ} {x : α} {l : List α}
    (h : l.Pairwise (fun a b => key b ≤ key a)) :
    (insertDesc key x l).Pairwise (fun a b => key b ≤ key a) := by
  induction l with
  | nil => simp [insertDesc]
  | cons y ys ih =>
      rw [insertDesc]
      rcases List.pairwise_cons.mp h with ⟨hy, hys⟩
      split
      · rename_i hlt
        refine List.pairwise_cons.mpr ⟨?_, ih hys⟩
        intro z hz
        rcases mem_insertDesc.mp hz with rfl | hz
        · exact le_of_lt hlt
        · exact hy z hz
      · rename_i hnlt
        refine List.pairwise_cons.mpr ⟨?_, h⟩
        intro z hz
        rcases hz with _ | hz
        · exact not_lt.mp hnlt
        · exact le_trans (hy z (by assumption)) (not_lt.mp hnlt)

lemma sortDesc_pairwise {α : Type} (key : α → ℚ) (l : List α) :
    (sortDesc key l).Pairwise (fun a b => key b ≤ key a) := by
  induction l with
  | nil => simp [sortDesc]
  | cons x xs ih => exact pairwise_insertDesc ih

lemma filter_insertDesc {α : Type} (key : α → ℚ) (q : ℚ) (x : α) (l : List α) :
    (insertDesc key x l).filter (fun z => key z = q)
      = if key x = q then x :: l.filter (fun z => key z = q)
        else l.filter (fun z => key z = q) := by
  induction l with
  | nil =>
      by_cases hx : key x = q <;> simp [insertDesc, hx]
  | cons y ys ih =>
      rw [insertDesc]
      split
      · rename_i hlt
        by_cases hy : key y = q
        · have hx : ¬ key x = q := by
            intro hx
            rw [hx, hy] at hlt
            exact lt_irrefl q hlt
          simp [List.filter_cons, hy, hx, ih]
        · simp [List.filter_cons, hy, ih]
      · by_cases hx : key x = q <;> simp [List.filter_cons, hx]

lemma sortDesc_filter {α : Type} (key : α → ℚ) (q : ℚ) (l : List α) :
    (sortDesc key l).filter (fun z => key z = q) = l.filter (fun z => key z = q) := by
  induction l with
  | nil => simp [sortDesc]
  | cons x xs ih =>
      rw [sortDesc, filter_insertDesc, List.filter_cons]
      by_cases hx : key x = q <;> simp [hx, ih]

/-! ## Pair-sublist helpers (relative order inside a list) -/

lemma pair_sublist_of_get {α : Type} :
    ∀ (l : List α) (i j : ℕ) (hi : i < l.length) (hj : j < l.length), i < j →
      [l.get ⟨i, hi⟩, l.get ⟨j, hj⟩].Sublist l := by
  intro l
  induction l with
  | nil => intro i j hi _ _; exact absurd hi (by simp)
  | cons a t ih =>
      intro i j hi hj hij
      match i, j, hi, hj, hij with
      | 0, j + 1, hi, hj, hij =>
          have hjt : j < t.length := by simpa using hj
          show [a, t.get ⟨j, hjt⟩].Sublist (a :: t)
          exact (List.singleton_sublist.mpr (List.get_mem t j hjt)).cons₂ a
      | i + 1, j + 1, hi, hj, hij =>
          have hit : i < t.length := by simpa using hi
          have hjt : j < t.length := by simpa using hj
          show [t.get ⟨i, hit⟩, t.get ⟨j, hjt⟩].Sublist (a :: t)
          exact (ih i j hit hjt (by omega)).cons a

lemma indexOf_lt_of_pair_sublist {α : Type} [BEq α] [LawfulBEq α] {x y : α} :
    ∀ {l : List α}, [x, y].Sublist l → l.Nodup → l.indexOf x < l.indexOf y := by
  intro l
  induction l with
  | nil => intro h; exact absurd h (by simp)
  | cons a t ih =>
      intro h hnd
      rcases List.nodup_cons.mp hnd with ⟨hat, hndt⟩
      cases h with
      | cons _ h2 =>
          have hx : x ∈ t := h2.subset (by simp)
          have hy : y ∈ t := h2.subset (by simp)
          have hxa : (a == x) = false := beq_eq_false_iff_ne.mpr
            (fun hxa => hat (hxa ▸ hx))
          have hya : (a == y) = false := beq_eq_false_iff_ne.mpr
            (fun hya => hat (hya ▸ hy))
          rw [List.indexOf_cons, List.indexOf_cons, hxa, hya]
          exact Nat.succ_lt_succ (ih h2 hndt)
      | cons₂ _ h2 =>
          have hy : y ∈ t := List.singleton_sublist.mp h2
          have hyx : (x == y) = false := beq_eq_false_iff_ne.mpr
            (fun hyx => hat (hyx ▸ hy))
          rw [List.indexOf_cons, List.indexOf_cons, hyx, beq_self_eq_true]
          exact Nat.succ_pos _

/-! ## RRF score accounting lemmas -/

lemma scoreOf_nil (d : String) : scoreOf [] d = 0 := rfl

lemma scoreOf_cons (p : String × ℚ) (acc : List (String × ℚ)) (d : String) :
    scoreOf (p :: acc) d = (if p.1 = d then p.2 else 0) + scoreOf acc d := by
  unfold scoreOf
  rw [List.filter_cons]
  by_cases h : p.1 = d <;> simp [h]

lemma scoreOf_append (a b : List (String × ℚ)) (d : String) :
    scoreOf (a ++ b) d = scoreOf a d + scoreOf b d := by
  unfold scoreOf
  rw [List.filter_append, List.map_append, List.sum_append]

lemma scoreOf_of_fst_not_mem {acc : List (String × ℚ)} {d : String}
    (h : d ∉ acc.map Prod.fst) : scoreOf acc d = 0 := by
  unfold scoreOf
  rw [List.filter_eq_nil_iff.mpr]
  · rfl
  · intro p hp
    simp only [decide_eq_true_eq]
    intro hpd
    exact h (List.mem_map.mpr ⟨p, hp, hpd⟩)

lemma addScore_map_fst (acc : List (String × ℚ)) (d : String) (s : ℚ) :
    (addScore acc d s).map Prod.fst
      = if d ∈ acc.map Prod.fst then acc.map Prod.fst else acc.map Prod.fst ++ [d] := by
  unfold addScore
  split
  · rw [List.map_map]
    apply List.map_congr_left
    intro p _
    by_cases hp : p.1 = d <;> simp [hp]
  · simp

lemma addScore_fst_nodup {acc : List (String × ℚ)} {d : String} {s : ℚ}
    (h : (acc.map Prod.fst).Nodup) : ((addScore acc d s).map Prod.fst).Nodup := by
  rw [addScore_map_fst]
  split
  · exact h
  · rename_i hnot
    rw [List.nodup_append]
    exact ⟨h, List.nodup_singleton d, by
      intro z hz hzd
      rcases List.mem_singleton.mp hzd with rfl
      exact hnot hz⟩

lemma scoreOf_update (d : String) (s : ℚ) (x : String) :
    ∀ (acc : List (String × ℚ)), (acc.map Prod.fst).Nodup → d ∈ acc.map Prod.fst →
      scoreOf (acc.map (fun p => if p.1 = d then (p.1, p.2 + s) else p)) x
        = scoreOf acc x + (if x = d then s else 0) := by
  intro acc
  induction acc with
  | nil => intro _ hmem; exact absurd hmem (by simp)
  | cons p acc ih =>
      intro hnd hmem
      rw [List.map_cons] at hnd
      rcases List.nodup_cons.mp hnd with ⟨hp1, hndt⟩
      rw [List.map_cons]
      by_cases hp : p.1 = d
      · have hdrest : d ∉ acc.map Prod.fst := hp ▸ hp1
        have hrest : acc.map (fun p => if p.1 = d then (p.1, p.2 + s) else p) = acc := by
          have : ∀ q ∈ acc, (fun p => if p.1 = d then (p.1, p.2 + s) else p) q = id q := by
            intro q hq
            have hqd : q.1 ≠ d := by
              intro hqd
              exact hdrest (List.mem_map.mpr ⟨q, hq, hqd⟩)
            simp [hqd]
          rw [List.map_congr_left this, List.map_id]
        rw [hrest, if_pos hp, scoreOf_cons, scoreOf_cons]
        by_cases hx : x = d
        · rw [if_pos hx]
          have hp1x : p.1 = x := by rw [hp, hx]
          rw [if_pos hp1x, if_pos hp1x]
          ring
        · rw [if_neg hx]
          have hp1x : ¬ p.1 = x := by rw [hp]; exact fun h => hx h.symm
          rw [if_neg hp1x, if_neg hp1x]
          ring
      · have hmem2 : d ∈ acc.map Prod.fst := by
          rw [List.map_cons] at hmem
          rcases List.mem_cons.mp hmem with h1 | h2
          · exact absurd h1.symm hp
          · exact h2
        rw [if_neg hp, scoreOf_cons, scoreOf_cons, ih hndt hmem2]
        ring

lemma scoreOf_addScore {acc : List (String × ℚ)} (d : String) (s : ℚ) (x : String)
    (h : (acc.map Prod.fst).Nodup) :
    scoreOf (addScore acc d s) x = scoreOf acc x + (if x = d then s else 0) := by
  unfold addScore
  split
  · rename_i hmem
    exact scoreOf_update d s x acc h hmem
  · rw [scoreOf_append, scoreOf_cons, scoreOf_nil]
    by_cases hx : x = d
    · rw [if_pos hx, if_pos (hx ▸ rfl)]
      ring
    · rw [if_neg hx, if_neg (fun h => hx h.symm)]
      ring

lemma scoreOf_foldPairs (k : ℚ) (x : String) :
    ∀ (pairs : List (ℕ × String)) (acc : List (String × ℚ)),
      (acc.map Prod.fst).Nodup →
      (((pairs.foldl (fun a p => addScore a p.2 (1 / ((p.1 : ℚ) + k))) acc).map
          Prod.fst).Nodup ∧
        scoreOf (pairs.foldl (fun a p => addScore a p.2 (1 / ((p.1 : ℚ) + k))) acc) x
          = scoreOf acc x
            + ((pairs.filter (fun p => p.2 = x)).map (fun p => 1 / ((p.1 : ℚ) + k))).sum) := by
  intro pairs
  induction pairs with
  | nil => intro acc h; exact ⟨h, by simp⟩
  | cons pr rest ih =>
      intro acc h
      rw [List.foldl_cons]
      rcases ih (addScore acc pr.2 (1 / ((pr.1 : ℚ) + k))) (addScore_fst_nodup h) with
        ⟨hnd2, hsc2⟩
      refine ⟨hnd2, ?_⟩
      rw [hsc2, scoreOf_addScore pr.2 (1 / ((pr.1 : ℚ) + k)) x h, List.filter_cons]
      by_cases hpx : pr.2 = x
      · rw [if_pos hpx.symm, if_pos (show decide (pr.2 = x) = true by simpa using hpx),
          List.map_cons, List.sum_cons]
        ring
      · rw [if_neg (fun hh => hpx hh.symm),
          if_neg (show ¬ decide (pr.2 = x) = true by simpa using hpx)]
        ring

lemma scoreOf_scoreOneList (k : ℚ) (x : String) (results : List String)
    (acc : List (String × ℚ)) (h : (acc.map Prod.fst).Nodup) :
    ((scoreOneList k acc results).map Prod.fst).Nodup ∧
      scoreOf (scoreOneList k acc results) x = scoreOf acc x + listContrib k x results := by
  unfold scoreOneList listContrib
  exact scoreOf_foldPairs k x results.enum acc h

lemma fusedScores_spec (k : ℚ) (x : String) :
    ∀ (results_lists : List (List String)) (acc : List (String × ℚ)),
      (acc.map Prod.fst).Nodup →
      (((results_lists.foldl (scoreOneList k) acc).map Prod.fst).Nodup ∧
        scoreOf (results_lists.foldl (scoreOneList k) acc) x
          = scoreOf acc x + (results_lists.map (listContrib k x)).sum) := by
  intro results_lists
  induction results_lists with
  | nil => intro acc h; exact ⟨h, by simp⟩
  | cons l rest ih =>
      intro acc h
      rw [List.foldl_cons]
      rcases scoreOf_scoreOneList k x l acc h with ⟨hnd1, hsc1⟩
      rcases ih (scoreOneList k acc l) hnd1 with ⟨hnd2, hsc2⟩
      refine ⟨hnd2, ?_⟩
      rw [hsc2, hsc1, List.map_cons, List.sum_cons]
      ring

lemma fusedScores_scoreOf (k : ℚ) (x : String) (results_lists : List (List String)) :
    scoreOf (fusedScores k results_lists) x
      = (results_lists.map (listContrib k x)).sum := by
  unfold fusedScores
  rcases fusedScores_spec k x results_lists [] (by simp) with ⟨_, h⟩
  rw [h, scoreOf_nil, zero_add]

lemma fusedScores_fst_nodup (k : ℚ) (results_lists : List (List String)) :
    ((fusedScores k results_lists).map Prod.fst).Nodup := by
  unfold fusedScores
  exact (fusedScores_spec k "" results_lists [] (by simp)).1

lemma snd_eq_scoreOf_of_mem {acc : List (String × ℚ)} {p : String × ℚ}
    (hnd : (acc.map Prod.fst).Nodup) (hp : p ∈ acc) : p.2 = scoreOf acc p.1 := by
  induction acc with
  | nil => exact absurd hp (by simp)
  | cons q acc ih =>
      rw [List.map_cons] at hnd
      rcases List.nodup_cons.mp hnd with ⟨hq1, hndt⟩
      rcases List.mem_cons.mp hp with rfl | hmem
      · rw [scoreOf_cons, if_pos rfl,
          scoreOf_of_fst_not_mem hq1, add_zero]
      · rw [scoreOf_cons, ih hndt hmem]
        have hq1p : q.1 ≠ p.1 := by
          intro hq
          exact hq1 (hq ▸ List.mem_map.mpr ⟨p, hmem, rfl⟩)
        rw [if_neg hq1p, zero_add]

/-! ## listContrib characterizations -/

lemma filter_enumFrom_of_not_mem (x : String) :
    ∀ (l : List String) (n : ℕ), x ∉ l →
      (List.enumFrom n l).filter (fun p => p.2 = x) = [] := by
  intro l
  induction l with
  | nil => intro n _; rfl
  | cons a t ih =>
      intro n hx
      rw [List.enumFrom_cons, List.filter_cons]
      have hax : ¬ a = x := fun h => hx (h ▸ List.mem_cons_self a t)
      rw [if_neg (by simpa using hax)]
      exact ih (n + 1) (fun h => hx (List.mem_cons_of_mem a h))

lemma filter_enumFrom_of_nodup (x : String) :
    ∀ (l : List String) (n : ℕ), l.Nodup → x ∈ l →
      (List.enumFrom n l).filter (fun p => p.2 = x) = [(n + l.indexOf x, x)] := by
  intro l
  induction l with
  | nil => intro n _ hx; exact absurd hx (by simp)
  | cons a t ih =>
      intro n hnd hx
      rcases List.nodup_cons.mp hnd with ⟨hat, hndt⟩
      rw [List.enumFrom_cons, List.filter_cons]
      by_cases hax : a = x
      · rw [if_pos (by simpa using hax),
          filter_enumFrom_of_not_mem x t (n + 1) (hax ▸ hat), hax,
          List.indexOf_cons_self, Nat.add_zero]
      · rw [if_neg (by simpa using hax),
          ih (n + 1) hndt (by
            rcases List.mem_cons.mp hx with h1 | h2
            · exact absurd h1.symm hax
            · exact h2),
          @List.indexOf_cons_ne String _ x a t hax]
        refine congrArg (fun m => [(m, x)]) ?_
        omega

lemma filter_enumFrom_once (x : String) :
    ∀ (a b : List String) (n : ℕ), x ∉ a → x ∉ b →
      (List.enumFrom n (a ++ x :: b)).filter (fun p => p.2 = x) = [(n + a.length, x)] := by
  intro a
  induction a with
  | nil =>
      intro b n _ hb
      rw [List.nil_append, List.enumFrom_cons, List.filter_cons,
        if_pos (by simp), filter_enumFrom_of_not_mem x b (n + 1) hb]
      simp
  | cons c a ih =>
      intro b n hca hb
      rw [List.cons_append, List.enumFrom_cons, List.filter_cons]
      have hcx : ¬ c = x := fun h => hca (h ▸ List.mem_cons_self c a)
      rw [if_neg (by simpa using hcx),
        ih b (n + 1) (fun h => hca (List.mem_cons_of_mem c h)) hb]
      refine congrArg (fun m => [(m, x)]) ?_
      rw [List.length_cons]
      omega

lemma listContrib_of_not_mem {k : ℚ} {x : String} {l : List String} (h : x ∉ l) :
    listContrib k x l = 0 := by
  unfold listContrib
  rw [List.enum_eq_enumFrom, filter_enumFrom_of_not_mem x l 0 h]
  rfl

lemma listContrib_of_nodup {k : ℚ} {x : String} {l : List String}
    (hnd : l.Nodup) (hx : x ∈ l) :
    listContrib k x l = 1 / ((l.indexOf x : ℚ) + k) := by
  unfold listContrib
  rw [List.enum_eq_enumFrom, filter_enumFrom_of_nodup x l 0 hnd hx, Nat.zero_add]
  simp

lemma listContrib_once {k : ℚ} {x : String} {a b : List String}
    (ha : x ∉ a) (hb : x ∉ b) :
    listContrib k x (a ++ x :: b) = 1 / ((a.length : ℚ) + k) := by
  unfold listContrib
  rw [List.enum_eq_enumFrom, filter_enumFrom_once x a b 0 ha hb, Nat.zero_add]
  simp

/-! ## fused_scores insertion order = first-encounter order -/

lemma foldPairs_map_fst (k : ℚ) :
    ∀ (pairs : List (ℕ × String)) (acc : List (String × ℚ)),
      ((pairs.foldl (fun a p => addScore a p.2 (1 / ((p.1 : ℚ) + k))) acc).map Prod.fst)
        = (pairs.map Prod.snd).foldl
            (fun ids d => if d ∈ ids then ids else ids ++ [d]) (acc.map Prod.fst) := by
  intro pairs
  induction pairs with
  | nil => intro acc; rfl
  | cons pr rest ih =>
      intro acc
      rw [List.foldl_cons, List.map_cons, List.foldl_cons, ih, addScore_map_fst]

lemma enum_map_snd (l : List String) : l.enum.map Prod.snd = l := by
  rw [List.enum_eq_enumFrom]
  generalize 0 = n
  induction l generalizing n with
  | nil => rfl
  | cons a t ih => rw [List.enumFrom_cons, List.map_cons, ih]

lemma fusedScores_map_fst (k : ℚ) (results_lists : List (List String)) :
    (fusedScores k results_lists).map Prod.fst = encounterOrder results_lists := by
  unfold fusedScores encounterOrder
  rw [List.foldl_flatten]
  have : ∀ (lists : List (List String)) (acc : List (String × ℚ)),
      ((lists.foldl (scoreOneList k) acc).map Prod.fst)
        = lists.foldl
            (fun ids l => l.foldl (fun ids d => if d ∈ ids then ids else ids ++ [d]) ids)
            (acc.map Prod.fst) := by
    intro lists
    induction lists with
    | nil => intro acc; rfl
    | cons l rest ih =>
        intro acc
        rw [List.foldl_cons, List.foldl_cons, ih]
        congr 1
        unfold scoreOneList
        rw [foldPairs_map_fst, enum_map_snd]
  exact this results_lists []

/-! ## C5 — Reciprocal Rank Fusion functional correctness -/

lemma sum_listContrib_eq (k : ℚ) (x : String) (lists : List (List String))
    (hnd : ∀ l ∈ lists, l.Nodup) :
    (lists.map (listContrib k x)).sum
      = ((lists.filter (fun l => decide (x ∈ l))).map
          (fun l => 1 / ((l.indexOf x : ℚ) + k))).sum := by
  induction lists with
  | nil => rfl
  | cons l rest ih =>
      rw [List.map_cons, List.sum_cons, List.filter_cons]
      have hrest := ih (fun m hm => hnd m (List.mem_cons_of_mem l hm))
      by_cases hx : x ∈ l
      · rw [if_pos (by simpa using hx),
          listContrib_of_nodup (hnd l (List.mem_cons_self l rest)) hx,
          List.map_cons, List.sum_cons, hrest]
      · rw [if_neg (by simpa using hx), listContrib_of_not_mem hx, hrest, zero_add]

lemma mem_foldl_dedup (x : String) :
    ∀ (ds : List String) (acc : List String),
      x ∈ ds.foldl (fun acc d => if d ∈ acc then acc else acc ++ [d]) acc →
        x ∈ acc ∨ x ∈ ds := by
  intro ds
  induction ds with
  | nil => intro acc h; exact Or.inl h
  | cons d rest ih =>
      intro acc h
      rw [List.foldl_cons] at h
      rcases ih _ h with hacc | hrest
      · by_cases hd : d ∈ acc
        · rw [if_pos hd] at hacc
          exact Or.inl hacc
        · rw [if_neg hd] at hacc
          rcases List.mem_append.mp hacc with h1 | h2
          · exact Or.inl h1
          · exact Or.inr (List.mem_cons.mpr (Or.inl (List.mem_singleton.mp h2)))
      · exact Or.inr (List.mem_cons_of_mem d hrest)

lemma mem_encounterOrder {x : String} {lists : List (List String)}
    (h : x ∈ encounterOrder lists) : ∃ l ∈ lists, x ∈ l := by
  unfold encounterOrder at h
  rcases mem_foldl_dedup x lists.flatten [] h with h1 | h2
  · exact absurd h1 (by simp)
  · exact List.mem_flatten.mp h2

/-- C5: with `k = 60`, every ranked entry's fused score is the sum over
the input lists containing its identifier of `1/(rank_in_that_list+60)`
(provided each input list is duplicate-free, as ranked search results
are); the ranked output is sorted by descending fused score; entries
with equal scores appear in first-encounter order (the `fused_scores`
dict order, which equals the first-encounter order over the concatenated
inputs); every returned identifier occurs in at least one input list;
and the output length is at most the requested limit. -/
theorem C5_rrf_correct (results_lists : List (List String)) (limit : ℕ)
    (hnd : ∀ l ∈ results_lists, l.Nodup) :
    (∀ p ∈ rrfRanked 60 results_lists limit,
        p.2 = ((results_lists.filter (fun l => decide (p.1 ∈ l))).map
          (fun l => 1 / ((l.indexOf p.1 : ℚ) + 60))).sum) ∧
    (rrfRanked 60 results_lists limit).Pairwise (fun a b => b.2 ≤ a.2) ∧
    (∀ (i j : ℕ) (hi : i < (rrfRanked 60 results_lists limit).length)
        (hj : j < (rrfRanked 60 results_lists limit).length), i < j →
        ((rrfRanked 60 results_lists limit).get ⟨i, hi⟩).2
            = ((rrfRanked 60 results_lists limit).get ⟨j, hj⟩).2 →
        (fusedScores 60 results_lists).indexOf
            ((rrfRanked 60 results_lists limit).get ⟨i, hi⟩)
          < (fusedScores 60 results_lists).indexOf
            ((rrfRanked 60 results_lists limit).get ⟨j, hj⟩)) ∧
    (fusedScores 60 results_lists).map Prod.fst = encounterOrder results_lists ∧
    (∀ d ∈ reciprocal_rank_fusion results_lists limit, ∃ l ∈ results_lists, d ∈ l) ∧
    (reciprocal_rank_fusion results_lists limit).length ≤ limit := by
  have hfsnd : ((fusedScores 60 results_lists).map Prod.fst).Nodup :=
    fusedScores_fst_nodup 60 results_lists
  have hmem_fs : ∀ p ∈ rrfRanked 60 results_lists limit,
      p ∈ fusedScores 60 results_lists := by
    intro p hp
    unfold rrfRanked at hp
    exact ((sortDesc_perm Prod.snd (fusedScores 60 results_lists)).mem_iff).mp
      (List.take_subset limit _ hp)
  refine ⟨?_, ?_, ?_, fusedScores_map_fst 60 results_lists, ?_, ?_⟩
  · intro p hp
    have hmem := hmem_fs p hp
    rw [snd_eq_scoreOf_of_mem hfsnd hmem, fusedScores_scoreOf,
      sum_listContrib_eq 60 p.1 results_lists hnd]
  · unfold rrfRanked
    exact (sortDesc_pairwise Prod.snd (fusedScores 60 results_lists)).sublist
      (List.take_sublist _ _)
  · intro i j hi hj hij heq
    have hlen : (rrfRanked 60 results_lists limit).length
        ≤ (sortDesc Prod.snd (fusedScores 60 results_lists)).length := by
      unfold rrfRanked
      rw [List.length_take]
      exact min_le_right _ _
    have hi2 : i < (sortDesc Prod.snd (fusedScores 60 results_lists)).length :=
      lt_of_lt_of_le hi hlen
    have hj2 : j < (sortDesc Prod.snd (fusedScores 60 results_lists)).length :=
      lt_of_lt_of_le hj hlen
    have hgi : (rrfRanked 60 results_lists limit).get ⟨i, hi⟩
        = (sortDesc Prod.snd (fusedScores 60 results_lists)).get ⟨i, hi2⟩ := by
      unfold rrfRanked
      simp [List.get_eq_getElem, List.getElem_take]
    have hgj : (rrfRanked 60 results_lists limit).get ⟨j, hj⟩
        = (sortDesc Prod.snd (fusedScores 60 results_lists)).get ⟨j, hj2⟩ := by
      unfold rrfRanked
      simp [List.get_eq_getElem, List.getElem_take]
    rw [hgi, hgj]
    rw [hgi, hgj] at heq
    set s := sortDesc Prod.snd (fusedScores 60 results_lists) with hs
    set a := s.get ⟨i, hi2⟩ with ha
    set b := s.get ⟨j, hj2⟩ with hb
    have hpair : [a, b].Sublist s := pair_sublist_of_get s i j hi2 hj2 hij
    have hfilter : [a, b].filter (fun z => decide (z.2 = a.2)) = [a, b] := by
      rw [List.filter_cons, List.filter_cons]
      rw [if_pos (by simp), if_pos (by simp [heq.symm])]
      rfl
    have hpairf : [a, b].Sublist (s.filter (fun z => decide (z.2 = a.2))) := by
      rw [← hfilter]
      exact List.Sublist.filter _ hpair
    have hstab : s.filter (fun z => decide (z.2 = a.2))
        = (fusedScores 60 results_lists).filter (fun z => decide (z.2 = a.2)) := by
      rw [hs]
      exact sortDesc_filter Prod.snd a.2 (fusedScores 60 results_lists)
    have hpairfs : [a, b].Sublist (fusedScores 60 results_lists) := by
      rw [hstab] at hpairf
      exact hpairf.trans (List.filter_sublist (fusedScores 60 results_lists))
    exact indexOf_lt_of_pair_sublist hpairfs (hfsnd.of_map Prod.fst)
  · intro d hd
    unfold reciprocal_rank_fusion at hd
    rcases List.mem_map.mp hd with ⟨p, hp, hpd⟩
    have hmem := hmem_fs p hp
    have hdfst : d ∈ (fusedScores 60 results_lists).map Prod.fst :=
      List.mem_map.mpr ⟨p, hmem, hpd⟩
    rw [fusedScores_map_fst] at hdfst
    exact mem_encounterOrder hdfst
  · unfold reciprocal_rank_fusion rrfRanked
    rw [List.length_map, List.length_take]
    exact min_le_left _ _

/-- C5 witness at a concrete pair of overlapping ranked lists. -/
theorem C5_rrf_correct_witness :
    (∀ l ∈ [["a", "b"], ["b", "c"]], l.Nodup) ∧
    ((∀ p ∈ rrfRanked 60 [["a", "b"], ["b", "c"]] 15,
        p.2 = (([["a", "b"], ["b", "c"]].filter (fun l => decide (p.1 ∈ l))).map
          (fun l => 1 / ((l.indexOf p.1 : ℚ) + 60))).sum) ∧
    (rrfRanked 60 [["a", "b"], ["b", "c"]] 15).Pairwise (fun a b => b.2 ≤ a.2) ∧
    (∀ (i j : ℕ) (hi : i < (rrfRanked 60 [["a", "b"], ["b", "c"]] 15).length)
        (hj : j < (rrfRanked 60 [["a", "b"], ["b", "c"]] 15).length), i < j →
        ((rrfRanked 60 [["a", "b"], ["b", "c"]] 15).get ⟨i, hi⟩).2
            = ((rrfRanked 60 [["a", "b"], ["b", "c"]] 15).get ⟨j, hj⟩).2 →
        (fusedScores 60 [["a", "b"], ["b", "c"]]).indexOf
            ((rrfRanked 60 [["a", "b"], ["b", "c"]] 15).get ⟨i, hi⟩)
          < (fusedScores 60 [["a", "b"], ["b", "c"]]).indexOf
            ((rrfRanked 60 [["a", "b"], ["b", "c"]] 15).get ⟨j, hj⟩)) ∧
    (fusedScores 60 [["a", "b"], ["b", "c"]]).map Prod.fst
        = encounterOrder [["a", "b"], ["b", "c"]] ∧
    (∀ d ∈ reciprocal_rank_fusion [["a", "b"], ["b", "c"]] 15,
        ∃ l ∈ [["a", "b"], ["b", "c"]], d ∈ l) ∧
    (reciprocal_rank_fusion [["a", "b"], ["b", "c"]] 15).length ≤ 15) :=
  ⟨by decide, C5_rrf_correct [["a", "b"], ["b", "c"]] 15 (by decide)⟩

/-! ## C6 — RRF is monotonic in rank -/

lemma sum_map_set (f : List String → ℚ) :
    ∀ (L : List (List String)) (j : ℕ) (x : List String) (h : j < L.length),
      ((L.set j x).map f).sum + f (L.get ⟨j, h⟩) = (L.map f).sum + f x := by
  intro L
  induction L with
  | nil => intro j x h; exact absurd h (by simp)
  | cons l rest ih =>
      intro j x h
      match j with
      | 0 =>
          rw [List.set_cons_zero, List.map_cons, List.map_cons, List.sum_cons,
            List.sum_cons]
          show f x + (rest.map f).sum + f l = f l + (rest.map f).sum + f x
          ring
      | j + 1 =>
          rw [List.set_cons_succ, List.map_cons, List.map_cons, List.sum_cons,
            List.sum_cons]
          have hj : j < rest.length := by simpa using h
          have := ih j x hj
          show f l + ((rest.set j x).map f).sum + f (rest.get ⟨j, hj⟩)
            = f l + (rest.map f).sum + f x
          rw [add_assoc, this]
          ring

/-- C6: with `k = 60`, a document's fused score is monotonic in rank:
adding an entry for document `d` (at any position, hence in particular
at a better rank) to one of the input lists, or moving the entry of `d`
within one input list to a better (smaller) rank, can only increase or
preserve the fused score of `d`, never decrease it. -/
theorem C6_rrf_monotone (L : List (List String)) (j : ℕ) (hj : j < L.length)
    (d : String) :
    (∀ (l : List String) (p : ℕ), d ∉ l →
      scoreOf (fusedScores 60 (L.set j l)) d
        ≤ scoreOf (fusedScores 60 (L.set j (l.take p ++ d :: l.drop p))) d) ∧
    (∀ (a b a2 b2 : List String), d ∉ a → d ∉ b → d ∉ a2 → d ∉ b2 →
      a2.length ≤ a.length →
      scoreOf (fusedScores 60 (L.set j (a ++ d :: b))) d
        ≤ scoreOf (fusedScores 60 (L.set j (a2 ++ d :: b2))) d) := by
  have key : ∀ (l1 l2 : List String),
      listContrib 60 d l1 ≤ listContrib 60 d l2 →
      scoreOf (fusedScores 60 (L.set j l1)) d ≤ scoreOf (fusedScores 60 (L.set j l2)) d := by
    intro l1 l2 hc
    rw [fusedScores_scoreOf, fusedScores_scoreOf]
    have h1 := sum_map_set (listContrib 60 d) L j l1 hj
    have h2 := sum_map_set (listContrib 60 d) L j l2 hj
    linarith
  constructor
  · intro l p hd
    apply key
    have htake : d ∉ l.take p := fun h => hd (List.take_subset p l h)
    have hdrop : d ∉ l.drop p := fun h => hd (List.drop_subset p l h)
    rw [listContrib_of_not_mem hd, listContrib_once htake hdrop]
    positivity
  · intro a b a2 b2 ha hb ha2 hb2 hlen
    apply key
    rw [listContrib_once ha hb, listContrib_once ha2 hb2]
    apply one_div_le_one_div_of_le
    · positivity
    · have : (a2.length : ℚ) ≤ (a.length : ℚ) := Nat.cast_le.mpr hlen
      linarith

/-- C6 witness. -/
theorem C6_rrf_monotone_witness :
    (0 : ℕ) < ([["x"], ["y"]] : List (List String)).length ∧
    "d" ∉ (["x"] : List String) ∧
    scoreOf (fusedScores 60 ([["x"], ["y"]].set 0 ["x"])) "d"
      ≤ scoreOf (fusedScores 60
          ([["x"], ["y"]].set 0 ((["x"] : List String).take 0 ++ "d" :: (["x"] : List String).drop 0))) "d" ∧
    scoreOf (fusedScores 60 ([["x"], ["y"]].set 0 (["x"] ++ "d" :: ([] : List String)))) "d"
      ≤ scoreOf (fusedScores 60 ([["x"], ["y"]].set 0 (([] : List String) ++ "d" :: ([] : List String)))) "d" :=
  ⟨by decide, by decide,
   (C6_rrf_monotone [["x"], ["y"]] 0 (by decide) "d").1 ["x"] 0 (by decide),
   (C6_rrf_monotone [["x"], ["y"]] 0 (by decide) "d").2 ["x"] [] [] []
     (by decide) (by decide) (by decide) (by decide) (by decide)⟩

/-! ## Image-retrieval invariants (for C2 and C10) -/

/-- Invariant carried by the `(all_candidate_images, seen_paths)`
accumulator: candidate paths are pairwise distinct, every candidate's
path has been recorded as seen, and every candidate scored strictly
above the 0.22 threshold. -/
def GoodAcc (acc : List ImgOut × List String) : Prop :=
  (acc.1.map ImgOut.image_path).Nodup ∧
  (∀ o ∈ acc.1, o.image_path ∈ acc.2) ∧
  (∀ o ∈ acc.1, (0.22 : ℚ) < o.score)

lemma imgStep_cases {ε : Type} (sim : ε → ℚ) (mult : ℚ)
    (acc : List ImgOut × List String) (img : Img ε) :
    imgStep sim mult acc img = acc ∨
    ∃ p e, effImagePath img = some p ∧ p ∉ acc.2 ∧ img.clip_embedding = some e ∧
      (0.22 : ℚ) < sim e * mult ∧
      imgStep sim mult acc img = (acc.1 ++ [⟨p, sim e * mult⟩], acc.2 ++ [p]) := by
  rcases heff : effImagePath img with _ | p
  · exact Or.inl (by simp [imgStep, heff])
  · by_cases hseen : p ∈ acc.2
    · exact Or.inl (by simp [imgStep, heff, hseen])
    · rcases hemb : img.clip_embedding with _ | e
      · exact Or.inl (by simp [imgStep, heff, hseen, hemb])
      · by_cases hth : (0.22 : ℚ) < sim e * mult
        · exact Or.inr ⟨p, e, rfl, hseen, rfl, hth,
            by simp [imgStep, heff, hseen, hemb, hth]⟩
        · exact Or.inl (by simp [imgStep, heff, hseen, hemb, hth])

lemma imgStep_good {ε : Type} (sim : ε → ℚ) (mult : ℚ)
    (acc : List ImgOut × List String) (img : Img ε) (h : GoodAcc acc) :
    GoodAcc (imgStep sim mult acc img) ∧
    acc.2 ⊆ (imgStep sim mult acc img).2 ∧
    ∃ suffix, (imgStep sim mult acc img).1 = acc.1 ++ suffix ∧
      ∀ o ∈ suffix, o.image_path ∉ acc.2 := by
  rcases imgStep_cases sim mult acc img with heq | ⟨p, e, _, hseen, _, hth, heq⟩
  · rw [heq]
    exact ⟨h, fun z hz => hz, [], by simp, by simp⟩
  · rw [heq]
    rcases h with ⟨hnd, hsub, hsc⟩
    refine ⟨⟨?_, ?_, ?_⟩, ?_, [⟨p, sim e * mult⟩], rfl, ?_⟩
    · rw [List.map_append, List.nodup_append]
      refine ⟨hnd, by simp, ?_⟩
      intro z hz hzp
      rcases List.mem_singleton.mp (by simpa using hzp) with rfl
      rcases List.mem_map.mp hz with ⟨o, ho, hop⟩
      exact hseen (hop ▸ hsub o ho)
    · intro o ho
      rcases List.mem_append.mp ho with h1 | h2
      · exact List.mem_append.mpr (Or.inl (hsub o h1))
      · rcases List.mem_singleton.mp h2 with rfl
        simp
    · intro o ho
      rcases List.mem_append.mp ho with h1 | h2
      · exact hsc o h1
      · rcases List.mem_singleton.mp h2 with rfl
        exact hth
    · intro z hz
      exact List.mem_append.mpr (Or.inl hz)
    · intro o ho
      rcases List.mem_singleton.mp ho with rfl
      exact hseen

lemma foldImgs_good {ε : Type} (sim : ε → ℚ) (mult : ℚ) :
    ∀ (imgs : List (Img ε)) (acc : List ImgOut × List String), GoodAcc acc →
      GoodAcc (imgs.foldl (imgStep sim mult) acc) ∧
      acc.2 ⊆ (imgs.foldl (imgStep sim mult) acc).2 ∧
      ∃ suffix, (imgs.foldl (imgStep sim mult) acc).1 = acc.1 ++ suffix ∧
        ∀ o ∈ suffix, o.image_path ∉ acc.2 := by
  intro imgs
  induction imgs with
  | nil => intro acc h; exact ⟨h, fun z hz => hz, [], by simp, by simp⟩
  | cons img rest ih =>
      intro acc h
      rw [List.foldl_cons]
      rcases imgStep_good sim mult acc img h with
        ⟨hg1, hsub1, s1, hs1, hnew1⟩
      rcases ih (imgStep sim mult acc img) hg1 with ⟨hg2, hsub2, s2, hs2, hnew2⟩
      refine ⟨hg2, fun z hz => hsub2 (hsub1 hz), s1 ++ s2, ?_, ?_⟩
      · rw [hs2, hs1, List.append_assoc]
      · intro o ho
        rcases List.mem_append.mp ho with h1 | h2
        · exact hnew1 o h1
        · intro hmem
          exact hnew2 o h2 (hsub1 hmem)

lemma collectPass_good {ε : Type} (sim : ε → ℚ) (mult : ℚ) :
    ∀ (nodes : List (Node ε)) (acc : List ImgOut × List String), GoodAcc acc →
      GoodAcc (collectPass sim mult nodes acc) ∧
      acc.2 ⊆ (collectPass sim mult nodes acc).2 ∧
      ∃ suffix, (collectPass sim mult nodes acc).1 = acc.1 ++ suffix ∧
        ∀ o ∈ suffix, o.image_path ∉ acc.2 := by
  intro nodes
  induction nodes with
  | nil => intro acc h; exact ⟨h, fun z hz => hz, [], by simp [collectPass], by simp⟩
  | cons node rest ih =>
      intro acc h
      unfold collectPass
      rw [List.foldl_cons]
      rcases foldImgs_good sim mult node.related_images acc h with
        ⟨hg1, hsub1, s1, hs1, hnew1⟩
      rcases ih (node.related_images.foldl (imgStep sim mult) acc) hg1 with
        ⟨hg2, hsub2, s2, hs2, hnew2⟩
      refine ⟨hg2, fun z hz => hsub2 (hsub1 hz), s1 ++ s2, ?_, ?_⟩
      · unfold collectPass at hs2
        rw [hs2, hs1, List.append_assoc]
      · intro o ho
        rcases List.mem_append.mp ho with h1 | h2
        · exact hnew1 o h1
        · intro hmem
          exact hnew2 o h2 (hsub1 hmem)

/-! ## C2 — image threshold and dual-modality boost -/

/-- C2 counterexample: an image candidate whose cosine similarity to the
query is 0.20 (= 1/5, below the 0.22 minimum) does appear in the
returned image list when it comes from the text-context pass, because
that pass applies the 0.22 threshold to the boosted score
0.20 × 1.15 = 0.23 — refuting "never appears regardless of which pass
produced it". -/
theorem C2_counterexample :
    ((1 : ℚ) / 5 < 0.22) ∧
    retrieve_images (fun q : ℚ => q) [] [⟨[⟨some "p", none, some (1 / 5)⟩]⟩] 12
      = [⟨"p", 23 / 100⟩] ∧
    "p" ∈ (retrieve_images (fun q : ℚ => q) [] [⟨[⟨some "p", none, some (1 / 5)⟩]⟩]
      12).map ImgOut.image_path := by
  refine ⟨by norm_num, ?_, ?_⟩
  · norm_num [retrieve_images, collectPass, imgStep, effImagePath, pyOrStr, truthyStr,
      sortDesc, insertDesc]
  · norm_num [retrieve_images, collectPass, imgStep, effImagePath, pyOrStr, truthyStr,
      sortDesc, insertDesc]

/-- C2 (amended): every entry of the returned image list has final score
strictly above 0.22, where a visual-direct candidate carries its raw
similarity and a text-context candidate carries similarity × 1.15 (so a
visual-direct candidate at 0.20 never appears, while a text-context
candidate at raw 0.20 can appear with boosted score 0.23); the returned
list is sorted by descending final score — in particular a text-context
candidate at raw similarity 0.25 (boosted to 0.2875) ranks above an
unboosted visual candidate at 0.27. -/
theorem C2_threshold_and_boost {ε : Type} (sim : ε → ℚ)
    (visual_nodes text_docs : List (Node ε)) (limit : ℕ) :
    (∀ o ∈ retrieve_images sim visual_nodes text_docs limit, (0.22 : ℚ) < o.score) ∧
    (retrieve_images sim visual_nodes text_docs limit).Pairwise
      (fun a b => b.score ≤ a.score) ∧
    retrieve_images (fun q : ℚ => q) [⟨[⟨some "imgV", none, some (27 / 100)⟩]⟩]
        [⟨[⟨some "imgT", none, some (1 / 4)⟩]⟩] 12
      = [⟨"imgT", 23 / 80⟩, ⟨"imgV", 27 / 100⟩] := by
  have hg0 : GoodAcc (([], []) : List ImgOut × List String) := by
    unfold GoodAcc
    exact ⟨by simp, by simp, by simp⟩
  have hg1 := (collectPass_good sim 1 visual_nodes ([], []) hg0).1
  have hg2 := (collectPass_good sim 1.15 text_docs
    (collectPass sim 1 visual_nodes ([], [])) hg1).1
  refine ⟨?_, ?_, ?_⟩
  · intro o ho
    simp only [retrieve_images] at ho
    have hmem : o ∈ (collectPass sim 1.15 text_docs
        (collectPass sim 1 visual_nodes ([], []))).1 :=
      ((sortDesc_perm ImgOut.score _).mem_iff).mp (List.take_subset _ _ ho)
    exact hg2.2.2 o hmem
  · simp only [retrieve_images]
    exact (sortDesc_pairwise ImgOut.score _).sublist (List.take_sublist _ _)
  · norm_num [retrieve_images, collectPass, imgStep, effImagePath, pyOrStr, truthyStr,
      sortDesc, insertDesc]

/-- C2 witness for the amended theorem. -/
theorem C2_threshold_and_boost_witness :
    (⟨"imgT", 23 / 80⟩ : ImgOut) ∈ retrieve_images (fun q : ℚ => q)
        [⟨[⟨some "imgV", none, some (27 / 100)⟩]⟩]
        [⟨[⟨some "imgT", none, some (1 / 4)⟩]⟩] 12 ∧
    (0.22 : ℚ) < (23 / 80 : ℚ) ∧
    (retrieve_images (fun q : ℚ => q) [⟨[⟨some "imgV", none, some (27 / 100)⟩]⟩]
        [⟨[⟨some "imgT", none, some (1 / 4)⟩]⟩] 12).Pairwise
      (fun a b => b.score ≤ a.score) :=
  ⟨by norm_num [retrieve_images, collectPass, imgStep, effImagePath, pyOrStr, truthyStr,
      sortDesc, insertDesc],
   (C2_threshold_and_boost (fun q : ℚ => q) [⟨[⟨some "imgV", none, some (27 / 100)⟩]⟩]
      [⟨[⟨some "imgT", none, some (1 / 4)⟩]⟩] 12).1 ⟨"imgT", 23 / 80⟩
     (by norm_num [retrieve_images, collectPass, imgStep, effImagePath, pyOrStr,
       truthyStr, sortDesc, insertDesc]),
   (C2_threshold_and_boost (fun q : ℚ => q) [⟨[⟨some "imgV", none, some (27 / 100)⟩]⟩]
      [⟨[⟨some "imgT", none, some (1 / 4)⟩]⟩] 12).2.1⟩

/-! ## C10 — no duplicate image paths; visual-direct entry wins -/

/-- C10: the returned image list never contains two entries with the
same image path; and whenever an output entry's path was produced
(accepted) by the visual-direct pass, that output entry is exactly the
visual-direct pass's entry — carrying the raw, unboosted similarity —
so a colliding text-context candidate for the same path is never the one
kept. -/
theorem C10_no_duplicate_paths {ε : Type} (sim : ε → ℚ)
    (visual_nodes text_docs : List (Node ε)) (limit : ℕ) :
    ((retrieve_images sim visual_nodes text_docs limit).map ImgOut.image_path).Nodup ∧
    (∀ o ∈ retrieve_images sim visual_nodes text_docs limit,
      o.image_path ∈ (collectPass sim 1 visual_nodes ([], [])).2 →
      o ∈ (collectPass sim 1 visual_nodes ([], [])).1) := by
  have hg0 : GoodAcc (([], []) : List ImgOut × List String) := by
    unfold GoodAcc
    exact ⟨by simp, by simp, by simp⟩
  have hg1 := (collectPass_good sim 1 visual_nodes ([], []) hg0).1
  rcases collectPass_good sim 1.15 text_docs
    (collectPass sim 1 visual_nodes ([], [])) hg1 with ⟨hg2, hsub2, s2, hs2, hnew2⟩
  constructor
  · simp only [retrieve_images]
    have hperm : ((sortDesc ImgOut.score (collectPass sim 1.15 text_docs
          (collectPass sim 1 visual_nodes ([], []))).1).map ImgOut.image_path).Perm
        ((collectPass sim 1.15 text_docs
          (collectPass sim 1 visual_nodes ([], []))).1.map ImgOut.image_path) :=
      (sortDesc_perm ImgOut.score _).map ImgOut.image_path
    have hnodup := (hperm.nodup_iff).mpr hg2.1
    rw [List.map_take]
    exact hnodup.sublist (List.take_sublist _ _)
  · intro o ho hpath
    simp only [retrieve_images] at ho
    have hmem : o ∈ (collectPass sim 1.15 text_docs
        (collectPass sim 1 visual_nodes ([], []))).1 :=
      ((sortDesc_perm ImgOut.score _).mem_iff).mp (List.take_subset _ _ ho)
    rw [hs2] at hmem
    rcases List.mem_append.mp hmem with h1 | h2
    · exact h1
    · exact absurd hpath (hnew2 o h2)

/-- C10 witness: a path produced by both passes is kept once, with the
visual-direct (unboosted) score. -/
theorem C10_no_duplicate_paths_witness :
    ((retrieve_images (fun q : ℚ => q) [⟨[⟨some "p", none, some (3 / 10)⟩]⟩]
        [⟨[⟨some "p", none, some (1 / 2)⟩, ⟨some "q", none, some (1 / 4)⟩]⟩]
        12).map ImgOut.image_path).Nodup ∧
    (⟨"p", 3 / 10⟩ : ImgOut) ∈ retrieve_images (fun q : ℚ => q)
        [⟨[⟨some "p", none, some (3 / 10)⟩]⟩]
        [⟨[⟨some "p", none, some (1 / 2)⟩, ⟨some "q", none, some (1 / 4)⟩]⟩] 12 ∧
    "p" ∈ (collectPass (fun q : ℚ => q) 1 [⟨[⟨some "p", none, some (3 / 10)⟩]⟩]
        ([], [])).2 ∧
    (⟨"p", 3 / 10⟩ : ImgOut) ∈ (collectPass (fun q : ℚ => q) 1
        [⟨[⟨some "p", none, some (3 / 10)⟩]⟩] ([], [])).1 :=
  ⟨(C10_no_duplicate_paths (fun q : ℚ => q) [⟨[⟨some "p", none, some (3 / 10)⟩]⟩]
      [⟨[⟨some "p", none, some (1 / 2)⟩, ⟨some "q", none, some (1 / 4)⟩]⟩] 12).1,
   by norm_num [retrieve_images, collectPass, imgStep, effImagePath, pyOrStr, truthyStr,
     sortDesc, insertDesc],
   by
     norm_num [collectPass, imgStep, effImagePath, pyOrStr, truthyStr]
     decide,
   (C10_no_duplicate_paths (fun q : ℚ => q) [⟨[⟨some "p", none, some (3 / 10)⟩]⟩]
      [⟨[⟨some "p", none, some (1 / 2)⟩, ⟨some "q", none, some (1 / 4)⟩]⟩] 12).2
     ⟨"p", 3 / 10⟩
     (by norm_num [retrieve_images, collectPass, imgStep, effImagePath, pyOrStr,
       truthyStr, sortDesc, insertDesc])
     (by
       norm_num [collectPass, imgStep, effImagePath, pyOrStr, truthyStr]
       decide)⟩
